import Mathlib

/-
Verification development for gawsh (a static HTML portrait generator for Git
repositories).  The definitions below are a shallow embedding of the two
source files `src/main.rs` and `src/sled_helpers.rs`:

  * bytes are modelled as `Nat`, byte strings as `List Nat`;
  * a sled `Tree` (ordered key-value collection) is modelled as an
    association list with unique keys (`SledTree`), with point lookup,
    point insert, removal and the registered merge operator;
  * the git object store (libgit2, an external collaborator) is modelled as
    an abstract `Repo` record of resolution functions;
  * the rayon-parallel stages are modelled sequentially (the spec itself
    states that results must not depend on task completion order).
-/

set_option linter.unusedVariables false

/-! ## Byte strings and NUL splitting -/

/-- A git object id (in the source: a 20-byte `Oid`, shipped between threads
as a `Vec<u8>`). -/
abbrev Oid := List Nat

/-- Rust `slice::split(|c| c == &0)`: split a byte string on every NUL byte.
An empty input yields one empty segment, and `n` separators yield `n + 1`
segments, exactly as in Rust. -/
def splitOnNul : List Nat → List (List Nat)
  | [] => [[]]
  | b :: rest =>
    if b = 0 then
      [] :: splitOnNul rest
    else
      match splitOnNul rest with
      | s :: ss => (b :: s) :: ss
      | [] => [[b]]

/-- `sled_helpers::concatenate_merge`: the merge operator registered on the
pending (`oids_todo`) collection.  Splits the previous value on NUL, returns
it unchanged if the incoming bytes are already one of the segments, and
otherwise appends the incoming bytes, preceded by a NUL separator whenever
the previous value was non-empty.  Returning `none` would delete the key
(sled semantics); this reducer never does. -/
def concatenate_merge (key : Oid) (old_value : Option (List Nat))
    (merged_bytes : List Nat) : Option (List Nat) :=
  if merged_bytes ∈ splitOnNul (old_value.getD []) then
    some (old_value.getD [])
  else if 0 < (old_value.getD []).length then
    some (old_value.getD [] ++ 0 :: merged_bytes)
  else
    some (old_value.getD [] ++ merged_bytes)

/-! ## The durable state store: one sled `Tree` as an association list -/

/-- One sled collection: an ordered map, modelled as an association list
with unique keys.  (Iteration order in sled is key-sorted; no property
proved here depends on iteration order.) -/
abbrev SledTree := List (Oid × List Nat)

/-- Point lookup (`sled::Tree::get`). -/
def alLookup : SledTree → Oid → Option (List Nat)
  | [], _ => none
  | (k', v) :: rest, k => if k' = k then some v else alLookup rest k

/-- Existence check (`sled::Tree::contains_key`). -/
def alContains (db : SledTree) (k : Oid) : Bool :=
  (alLookup db k).isSome

/-- Point insert (`sled::Tree::insert`): sets the key to the value,
replacing any previous value. -/
def alInsert : SledTree → Oid → List Nat → SledTree
  | [], k, v => [(k, v)]
  | (k', v') :: rest, k, v =>
    if k' = k then (k, v) :: rest else (k', v') :: alInsert rest k v

/-- Key removal, used only to model sled's behaviour when a merge operator
returns `None` (which `concatenate_merge` never does). -/
def alRemove : SledTree → Oid → SledTree
  | [], _ => []
  | (k', v') :: rest, k => if k' = k then rest else (k', v') :: alRemove rest k

/-- `sled::Tree::merge` with the registered `concatenate_merge` operator:
the reducer sees the existing value (or absence) and the incoming payload,
and its result is committed (a `none` result would delete the key). -/
def alMerge (db : SledTree) (k : Oid) (payload : List Nat) : SledTree :=
  match concatenate_merge k (alLookup db k) payload with
  | some v => alInsert db k v
  | none => alRemove db k

/-! ### Basic store lemmas -/

theorem alLookup_alInsert_self (db : SledTree) (k : Oid) (v : List Nat) :
    alLookup (alInsert db k v) k = some v := by
  induction db with
  | nil => simp [alInsert, alLookup]
  | cons p rest ih =>
    obtain ⟨k', v'⟩ := p
    by_cases h : k' = k
    · simp [alInsert, h, alLookup]
    · simp [alInsert, h, alLookup, ih]

theorem alContains_alInsert (db : SledTree) (k : Oid) (v : List Nat) (o : Oid) :
    alContains (alInsert db k v) o = true ↔ k = o ∨ alContains db o = true := by
  induction db with
  | nil =>
    by_cases h : k = o <;> simp [alInsert, alContains, alLookup, h]
  | cons p rest ih =>
    obtain ⟨k', v'⟩ := p
    by_cases h : k' = k
    · subst h
      by_cases ho : k' = o <;>
        simp [alInsert, alContains, alLookup, ho]
    · by_cases ho : k' = o
      · subst ho
        simp [alInsert, h, alContains, alLookup]
      · simp [alInsert, h, alContains, alLookup, ho] at ih ⊢
        exact ih

theorem alContains_cons (k' : Oid) (v' : List Nat) (rest : SledTree) (o : Oid) :
    alContains ((k', v') :: rest) o = true ↔ k' = o ∨ alContains rest o = true := by
  by_cases h : k' = o <;> simp [alContains, alLookup, h]

theorem concatenate_merge_isSome (k : Oid) (old : Option (List Nat))
    (p : List Nat) : (concatenate_merge k old p).isSome = true := by
  unfold concatenate_merge
  repeat' split
  all_goals rfl

theorem alMerge_eq_alInsert (db : SledTree) (k : Oid) (p : List Nat) :
    ∃ v, alMerge db k p = alInsert db k v := by
  unfold alMerge
  cases h : concatenate_merge k (alLookup db k) p with
  | none =>
    have := concatenate_merge_isSome k (alLookup db k) p
    rw [h] at this
    simp at this
  | some v => exact ⟨v, rfl⟩

theorem alContains_alMerge (db : SledTree) (k : Oid) (p : List Nat) (o : Oid) :
    alContains (alMerge db k p) o = true ↔ k = o ∨ alContains db o = true := by
  obtain ⟨v, hv⟩ := alMerge_eq_alInsert db k p
  rw [hv]
  exact alContains_alInsert db k v o

/-- Keys of a collection, in iteration order. -/
def alKeys (db : SledTree) : List Oid := db.map (fun p => p.1)

theorem mem_alKeys (db : SledTree) (k : Oid) :
    k ∈ alKeys db ↔ alContains db k = true := by
  induction db with
  | nil => simp [alKeys, alContains, alLookup]
  | cons p rest ih =>
    obtain ⟨k', v'⟩ := p
    by_cases h : k' = k
    · simp [alKeys, alContains, alLookup, h]
    · have h' : ¬ (k = k') := fun hk => h hk.symm
      simp [alKeys, alContains, alLookup, h, h'] at ih ⊢
      exact ih

/-! ### NUL-splitting lemmas feeding the merge-reducer theorems -/

theorem splitOnNul_ne_nil (l : List Nat) : splitOnNul l ≠ [] := by
  induction l with
  | nil => simp [splitOnNul]
  | cons b rest ih =>
    by_cases hb : b = 0
    · simp [splitOnNul, hb]
    · cases hs : splitOnNul rest with
      | nil => exact absurd hs ih
      | cons s ss => simp [splitOnNul, hb, hs]

theorem splitOnNul_append_zero (a b : List Nat) :
    splitOnNul (a ++ 0 :: b) = splitOnNul a ++ splitOnNul b := by
  induction a with
  | nil => simp [splitOnNul]
  | cons x a' ih =>
    by_cases hx : x = 0
    · simp [splitOnNul, hx, ih]
    · cases hs : splitOnNul a' with
      | nil => exact absurd hs (splitOnNul_ne_nil a')
      | cons s ss =>
        have ha : splitOnNul (a' ++ 0 :: b) = (s :: ss) ++ splitOnNul b := by
          rw [ih, hs]
        simp only [List.cons_append, splitOnNul, if_neg hx, List.append_eq,
          ha, hs, List.cons_append]

theorem splitOnNul_of_not_mem_zero (p : List Nat) (hp : 0 ∉ p) :
    splitOnNul p = [p] := by
  induction p with
  | nil => simp [splitOnNul]
  | cons b rest ih =>
    have hb : b ≠ 0 := fun h => hp (h ▸ List.mem_cons_self b rest)
    have hrest : 0 ∉ rest := fun h => hp (List.mem_cons_of_mem b h)
    simp [splitOnNul, hb, ih hrest]

/-- Whatever `concatenate_merge` commits for a NUL-free payload, the payload
is afterwards one of the NUL-separated segments of the stored value. -/
theorem mem_splitOnNul_concatenate_merge (k : Oid) (old : Option (List Nat))
    (p : List Nat) (hp : 0 ∉ p) (v : List Nat)
    (hv : concatenate_merge k old p = some v) : p ∈ splitOnNul v := by
  unfold concatenate_merge at hv
  by_cases hmem : p ∈ splitOnNul (old.getD [])
  · rw [if_pos hmem] at hv
    cases hv
    exact hmem
  · rw [if_neg hmem] at hv
    by_cases hlen : 0 < (old.getD []).length
    · rw [if_pos hlen] at hv
      cases hv
      rw [splitOnNul_append_zero, splitOnNul_of_not_mem_zero p hp]
      simp
    · rw [if_neg hlen] at hv
      cases hv
      have : old.getD [] = [] := by
        cases h : old.getD [] with
        | nil => rfl
        | cons x xs => rw [h] at hlen; simp at hlen
      rw [this]
      simp [splitOnNul_of_not_mem_zero p hp]

/-- C4: applying `concatenate_merge` twice with the same NUL-free filename
payload stores the same value as applying it once; if the NUL-split filename
list already contains the payload the value is returned unchanged, and
otherwise the payload is appended after a NUL separator (when a non-empty
value already existed). -/
theorem c4_concatenate_merge_idempotent (k : Oid) (old : Option (List Nat))
    (p : List Nat) (hp : 0 ∉ p) :
    concatenate_merge k (concatenate_merge k old p) p = concatenate_merge k old p
    ∧ (p ∈ splitOnNul (old.getD []) →
        concatenate_merge k old p = some (old.getD []))
    ∧ (p ∉ splitOnNul (old.getD []) → 0 < (old.getD []).length →
        concatenate_merge k old p = some (old.getD [] ++ 0 :: p)) := by
  refine ⟨?_, ?_, ?_⟩
  · cases hv : concatenate_merge k old p with
    | none =>
      have := concatenate_merge_isSome k old p
      rw [hv] at this
      simp at this
    | some v =>
      have hmemv : p ∈ splitOnNul v := mem_splitOnNul_concatenate_merge k old p hp v hv
      unfold concatenate_merge
      simp only [Option.getD_some, if_pos hmemv]
  · intro hmem
    unfold concatenate_merge
    rw [if_pos hmem]
  · intro hmem hlen
    unfold concatenate_merge
    rw [if_neg hmem, if_pos hlen]

/-- Witness for C4 at key `[1]`, existing value `"a"` and payload `"b"`. -/
theorem c4_concatenate_merge_idempotent_witness :
    (0 : Nat) ∉ ([98] : List Nat) ∧
      concatenate_merge [1] (concatenate_merge [1] (some [97]) [98]) [98]
        = concatenate_merge [1] (some [97]) [98] :=
  ⟨by decide, (c4_concatenate_merge_idempotent [1] (some [97]) [98] (by decide)).1⟩

/-- C9: the merge reducer is total (it never returns `None`, so a merge
never deletes the key), and when no previous value exists the stored value
is exactly the incoming payload, with no NUL separator added. -/
theorem c9_concatenate_merge_total (k : Oid) (old : Option (List Nat))
    (p : List Nat) :
    (concatenate_merge k old p).isSome = true
    ∧ concatenate_merge k none p = some p := by
  refine ⟨concatenate_merge_isSome k old p, ?_⟩
  by_cases hp : p = []
  · subst hp
    simp [concatenate_merge, splitOnNul]
  · simp [concatenate_merge, splitOnNul, hp]

/-! ## The git collaborator interface and the pipeline state -/

/-- `git2::ObjectType` as seen by the tree walk: only "is it a tree?"
matters for the skip, every other kind (blob, commit/submodule, ...) is
processed. -/
inductive EntryKind where
  | tree
  | blob
  | other
  deriving DecidableEq, Repr

/-- One `git2::TreeEntry` as delivered to the pre-order walk callback:
its kind, its object id (`entry.id()`) and its raw name bytes
(`entry.name_bytes()`). -/
structure Entry where
  kind : EntryKind
  oid : Oid
  name : List Nat
  deriving DecidableEq, Repr

/-- A resolved git blob: its raw content and libgit2's binary
classification (`Blob::is_binary`, a content sniff — external
collaborator, kept abstract as a field). -/
structure GitBlob where
  content : List Nat
  is_binary : Bool
  deriving DecidableEq, Repr

/-- The libgit2 repository, an external collaborator modelled by its
interface: the revwalk output, commit-to-flattened-pre-order-tree
resolution (`find_commit` + `tree` + `walk`), object resolvability
(`find_object`), blob resolution (`find_object` + `peel_to_blob`) and the
syntect/markup rendering of a text blob (content and filename hint to
serialized HTML bytes). -/
structure Repo where
  revs : List Oid
  commitTree : Oid → Option (List Entry)
  resolvable : Oid → Bool
  blob : Oid → Option GitBlob
  highlight : List Nat → List Nat → List Nat

/-- Log lines emitted by the work-queue builder (`error!` and `debug!`
calls in `determine_oids_to_render`). -/
inductive LogMsg where
  | unreachableEntity (oid : Oid)
  | failedWalkOid (oid : Oid)
  | shouldRenderObject (oid : Oid)
  deriving DecidableEq, Repr

/-- `git2::TreeWalkResult` as used by the walk callback (`Skip` is never
produced by this program). -/
inductive TreeWalkResult where
  | ok
  | abort
  deriving DecidableEq, Repr

/-- The mutable store state visible to the work-queue-building walk:
the rendered (`oids`), pending (`oids_todo`) and dead-letter (`oids_dlq`)
collections, plus the log. -/
structure WalkState where
  oids : SledTree
  todo : SledTree
  dlq : SledTree
  log : List LogMsg
  deriving Repr

/-- The body of the tree-walk callback in `determine_oids_to_render`
(main.rs:620-660) for a single entry.  Tree entries are skipped; an OID
already present in rendered, pending or dead-letter (checked in that
order) is a no-op; an unresolvable OID is dead-lettered with sentinel
`[0]` and logged, and the walk continues; otherwise the entry's filename
is merged into pending — a store-write failure there (modelled by the
`mergeFails` oracle) logs and aborts the walk. -/
def process_entry (repo : Repo) (mergeFails : Oid → List Nat → Bool)
    (st : WalkState) (e : Entry) : WalkState × TreeWalkResult :=
  if e.kind = EntryKind.tree then
    (st, TreeWalkResult.ok)
  else if alContains st.oids e.oid || alContains st.todo e.oid
      || alContains st.dlq e.oid then
    (st, TreeWalkResult.ok)
  else if repo.resolvable e.oid then
    -- source order: `if repo.find_object(oid, None).is_err()` dead-letters
    -- first; the branch order is flipped here with the condition negated
    if mergeFails e.oid e.name then
      ({ st with log := st.log ++ [LogMsg.failedWalkOid e.oid] },
        TreeWalkResult.abort)
    else
      ({ st with todo := alMerge st.todo e.oid e.name,
                 log := st.log ++ [LogMsg.shouldRenderObject e.oid] },
        TreeWalkResult.ok)
  else
    ({ st with dlq := alInsert st.dlq e.oid [0],
               log := st.log ++ [LogMsg.unreachableEntity e.oid] },
      TreeWalkResult.ok)

/-- `git2::Tree::walk` over the flattened pre-order entry list: runs the
callback on each entry, stopping as soon as it returns `Abort` (in which
case the walk as a whole reports the abort, which git2 surfaces as an
error). -/
def walkEntries (repo : Repo) (mergeFails : Oid → List Nat → Bool)
    (st : WalkState) : List Entry → WalkState × TreeWalkResult
  | [] => (st, TreeWalkResult.ok)
  | e :: rest =>
    match process_entry repo mergeFails st e with
    | (st', TreeWalkResult.ok) => walkEntries repo mergeFails st' rest
    | (st', TreeWalkResult.abort) => (st', TreeWalkResult.abort)

/-- One revision's task in `determine_oids_to_render`: resolve the rev to
its commit tree (`find_commit`/`tree` failure makes the task fail) and
walk it.  The `Bool` is task success. -/
def walkRev (repo : Repo) (mergeFails : Oid → List Nat → Bool)
    (st : WalkState) (rev : Oid) : WalkState × Bool :=
  match repo.commitTree rev with
  | none => (st, false)
  | some entries =>
    match walkEntries repo mergeFails st entries with
    | (st', TreeWalkResult.ok) => (st', true)
    | (st', TreeWalkResult.abort) => (st', false)

/-- `determine_oids_to_render` (main.rs:605-664): `try_for_each` over the
keys of the `revs` collection; a failing revision task short-circuits and
makes the whole stage return an error (mutations already committed to the
store remain). -/
def determine_oids_to_render (repo : Repo)
    (mergeFails : Oid → List Nat → Bool) (st : WalkState) :
    List Oid → WalkState × Bool
  | [] => (st, true)
  | rev :: rest =>
    match walkRev repo mergeFails st rev with
    | (st', true) => determine_oids_to_render repo mergeFails st' rest
    | (st', false) => (st', false)

/-- `repo.find_object(oid, None)?.peel_to_blob()?`: both steps are
fallible. -/
def findBlob (repo : Repo) (oid : Oid) : Option GitBlob :=
  if repo.resolvable oid then repo.blob oid else none

/-- `render_text_blob` (main.rs:720-768): resolve the pending OID to a
blob (failure propagates), return success without writing anything if the
blob is binary, and otherwise insert the serialized rendering into the
rendered collection keyed by the OID.  `none` models the propagated
error. -/
def render_text_blob (repo : Repo) (oid : Oid) (filename : List Nat)
    (db : SledTree) : Option SledTree :=
  match findBlob repo oid with
  | none => none
  | some b =>
    if b.is_binary then
      some db
    else
      some (alInsert db oid (repo.highlight b.content filename))

/-- `render_text_blobs` (main.rs:666-718): `try_for_each` over the pending
collection's entries, NUL-splitting the stored filename list and passing
the first filename as the language hint; an item failure short-circuits
the stage.  The pending collection itself is never modified. -/
def render_text_blobs (repo : Repo) (db : SledTree) :
    List (Oid × List Nat) → SledTree × Bool
  | [] => (db, true)
  | (oid, filenames) :: rest =>
    match render_text_blob repo oid ((splitOnNul filenames).headD []) db with
    | some db2 => render_text_blobs repo db2 rest
    | none => (db, false)

/-- `serialized_revs_from_repo` (main.rs:581-594): insert every revision
reachable from the glob `*` revwalk into the `revs` collection with
sentinel value `[0]`.  The `depth` argument is accepted but never read by
the source function. -/
def serialized_revs_from_repo (repo : Repo) (db : SledTree) (depth : Nat) :
    SledTree :=
  repo.revs.foldl (fun acc rev => alInsert acc rev [0]) db

/-- The four named collections of the durable store (`.gawsh.sled`),
as they persist across runs. -/
structure Store where
  revs : SledTree
  oids : SledTree
  oids_todo : SledTree
  oids_dlq : SledTree
  deriving Repr

/-- One full run of `main` after setup (main.rs:481-494): history walk
into `revs` (never cleared), clearing of pending and dead-letter,
work-queue building, then rendering.  The `Bool` is overall success as
`main` observes it through `?`; on a stage error the store reflects the
mutations already made. -/
def runOnce (repo : Repo) (mergeFails : Oid → List Nat → Bool)
    (depth : Nat) (prev : Store) : Store × Bool :=
  let revs2 := serialized_revs_from_repo repo prev.revs depth
  let st0 : WalkState := { oids := prev.oids, todo := [], dlq := [], log := [] }
  match determine_oids_to_render repo mergeFails st0 (alKeys revs2) with
  | (st1, false) =>
    ({ revs := revs2, oids := st1.oids, oids_todo := st1.todo,
       oids_dlq := st1.dlq }, false)
  | (st1, true) =>
    match render_text_blobs repo st1.oids st1.todo with
    | (oids2, ok2) =>
      ({ revs := revs2, oids := oids2, oids_todo := st1.todo,
         oids_dlq := st1.dlq }, ok2)

/-- The process-level inputs of `main`: the outcomes of the top-level
setup steps (opening the sled store, creating the three output
directories, opening the repository, in source order), the repository,
the store-failure oracle and the durable store carried over from earlier
runs. -/
structure World where
  storeOpens : Bool
  dirsOk : Bool
  repoOpens : Bool
  repo : Repo
  mergeFails : Oid → List Nat → Bool
  depth : Nat
  prev : Store

/-- Whether `main` returns `Ok(())` (process exit status 0): every setup
step must succeed, and then every `?`-propagated stage result must be
`Ok` as well. -/
def main_exits_ok (w : World) : Bool :=
  w.storeOpens && w.dirsOk && w.repoOpens
    && (runOnce w.repo w.mergeFails w.depth w.prev).2

/-! ## Concrete repositories used as counterexamples and witnesses -/

/-- A store with nothing persisted yet (first run). -/
def emptyStore : Store :=
  { revs := [], oids := [], oids_todo := [], oids_dlq := [] }

/-- The store never fails a write. -/
def noStoreFailure : Oid → List Nat → Bool := fun _ _ => false

/-- One commit `[1]` whose tree holds one resolvable text blob `[2]` named
`"a"` with content `"hi\n"`. -/
def repoOneTextBlob : Repo :=
  { revs := [[1]]
    commitTree := fun r =>
      if r = [1] then
        some [{ kind := EntryKind.blob, oid := [2], name := [97] }]
      else none
    resolvable := fun o => o = [2]
    blob := fun o =>
      if o = [2] then some { content := [104, 105, 10], is_binary := false }
      else none
    highlight := fun c f => c }

/-- One commit `[1]` whose tree references blob `[5]` (named `"a"`), which
is unresolvable in the object store. -/
def repoUnresolvable : Repo :=
  { revs := [[1]]
    commitTree := fun r =>
      if r = [1] then
        some [{ kind := EntryKind.blob, oid := [5], name := [97] }]
      else none
    resolvable := fun _ => false
    blob := fun _ => none
    highlight := fun c f => c }

/-- The same repository after object `[5]` has become resolvable (e.g. the
missing object was fetched between runs). -/
def repoResolvableLater : Repo :=
  { revs := [[1]]
    commitTree := fun r =>
      if r = [1] then
        some [{ kind := EntryKind.blob, oid := [5], name := [97] }]
      else none
    resolvable := fun o => o = [5]
    blob := fun o =>
      if o = [5] then some { content := [104], is_binary := false } else none
    highlight := fun c f => c }

/-- A world where every setup step succeeds, over `repoOneTextBlob`, but
the pending-collection merge for OID `[2]` fails (a store-write failure
during the tree walk). -/
def worldWalkWriteFails : World :=
  { storeOpens := true, dirsOk := true, repoOpens := true
    repo := repoOneTextBlob, mergeFails := fun o _ => o = [2]
    depth := 0, prev := emptyStore }

/-- C1 is violated by the code: after a fully successful run over a
repository with one resolvable text blob, the blob's OID is a key of both
the pending (`oids_todo`) and the rendered (`oids`) collections, because
the renderer never removes the OIDs it has rendered from the pending
collection. -/
theorem c1_counterexample :
    (runOnce repoOneTextBlob noStoreFailure 0 emptyStore).2 = true
    ∧ alContains (runOnce repoOneTextBlob noStoreFailure 0
        emptyStore).1.oids_todo [2] = true
    ∧ alContains (runOnce repoOneTextBlob noStoreFailure 0
        emptyStore).1.oids [2] = true := by
  decide

/-- C2 is violated by the code: OID `[5]` is dead-lettered by a successful
first run, yet the second run over the same durable store (after the
object becomes resolvable) inserts it into both pending and rendered,
because `main` clears `oids_dlq` at the start of every run. -/
theorem c2_counterexample :
    alContains (runOnce repoUnresolvable noStoreFailure 0
        emptyStore).1.oids_dlq [5] = true
    ∧ (runOnce repoUnresolvable noStoreFailure 0 emptyStore).2 = true
    ∧ alContains (runOnce repoResolvableLater noStoreFailure 0
        (runOnce repoUnresolvable noStoreFailure 0
          emptyStore).1).1.oids_todo [5] = true
    ∧ alContains (runOnce repoResolvableLater noStoreFailure 0
        (runOnce repoUnresolvable noStoreFailure 0
          emptyStore).1).1.oids [5] = true := by
  decide

/-- A repository whose history holds two revisions; used to show that the
history walk ignores its depth argument. -/
def repoTwoRevs : Repo :=
  { revs := [[1], [2]]
    commitTree := fun _ => none
    resolvable := fun _ => false
    blob := fun _ => none
    highlight := fun c f => c }

/-- C3: the code contradicts its own CLI documentation ("limit history
walk depth to N commits"): `serialized_revs_from_repo` never reads its
`depth` parameter, so with depth 1 over a two-revision history it still
inserts both revision keys. -/
theorem c3_depth_ignored :
    (alKeys (serialized_revs_from_repo repoTwoRevs [] 1)).length = 2
    ∧ alContains (serialized_revs_from_repo repoTwoRevs [] 1) [1] = true
    ∧ alContains (serialized_revs_from_repo repoTwoRevs [] 1) [2] = true := by
  decide

/-- C8 is violated by the code: with every top-level setup step
succeeding, a store-write failure during the single revision's tree walk
aborts the walk, and the resulting error propagates through
`determine_oids_to_render` and `main`'s `?`, so the process does NOT exit
successfully. -/
theorem c8_counterexample :
    worldWalkWriteFails.storeOpens = true
    ∧ worldWalkWriteFails.dirsOk = true
    ∧ worldWalkWriteFails.repoOpens = true
    ∧ main_exits_ok worldWalkWriteFails = false := by
  decide

/-! ## Frame and transport lemmas for the walk callback -/

/-- The dead-letter collection is disjoint from both pending and
rendered. -/
def DlqDisjoint (st : WalkState) : Prop :=
  ∀ o, alContains st.dlq o = true →
    alContains st.todo o = false ∧ alContains st.oids o = false

theorem pe_oids_frame (repo : Repo) (mf : Oid → List Nat → Bool)
    (st : WalkState) (e : Entry) :
    (process_entry repo mf st e).1.oids = st.oids := by
  unfold process_entry
  repeat' split
  all_goals rfl

theorem pe_dlq_mono (repo : Repo) (mf : Oid → List Nat → Bool)
    (st : WalkState) (e : Entry) (o : Oid)
    (h : alContains st.dlq o = true) :
    alContains (process_entry repo mf st e).1.dlq o = true := by
  unfold process_entry
  split
  · exact h
  · split
    · exact h
    · split
      · split
        · exact h
        · exact h
      · exact (alContains_alInsert st.dlq e.oid [0] o).mpr (Or.inr h)

theorem pe_todo_frame (repo : Repo) (mf : Oid → List Nat → Bool)
    (st : WalkState) (e : Entry) (o : Oid)
    (hd : alContains st.dlq o = true)
    (ht : alContains st.todo o = false) :
    alContains (process_entry repo mf st e).1.todo o = false := by
  unfold process_entry
  split
  · exact ht
  · split
    · exact ht
    · rename_i hskip
      have hdlq : alContains st.dlq e.oid = false := by
        cases hx : alContains st.dlq e.oid with
        | false => rfl
        | true => exact absurd (by simp [hx]) hskip
      split
      · split
        · exact ht
        · cases hval : alContains (alMerge st.todo e.oid e.name) o with
          | false => rfl
          | true =>
            exfalso
            rcases (alContains_alMerge st.todo e.oid e.name o).mp hval with
              he | hc
            · rw [he] at hdlq
              rw [hdlq] at hd
              exact Bool.noConfusion hd
            · rw [ht] at hc
              exact Bool.noConfusion hc
      · exact ht

theorem pe_dlqDisjoint (repo : Repo) (mf : Oid → List Nat → Bool)
    (st : WalkState) (e : Entry) (h : DlqDisjoint st) :
    DlqDisjoint (process_entry repo mf st e).1 := by
  unfold process_entry
  split
  · exact h
  · split
    · exact h
    · rename_i hskip
      have hoids : alContains st.oids e.oid = false := by
        cases hx : alContains st.oids e.oid with
        | false => rfl
        | true => exact absurd (by simp [hx]) hskip
      have htodo : alContains st.todo e.oid = false := by
        cases hx : alContains st.todo e.oid with
        | false => rfl
        | true => exact absurd (by simp [hx]) hskip
      have hdlq : alContains st.dlq e.oid = false := by
        cases hx : alContains st.dlq e.oid with
        | false => rfl
        | true => exact absurd (by simp [hx]) hskip
      split
      · split
        · exact h
        · intro o ho
          refine ⟨?_, (h o ho).2⟩
          cases hval : alContains (alMerge st.todo e.oid e.name) o with
          | false => rfl
          | true =>
            exfalso
            rcases (alContains_alMerge st.todo e.oid e.name o).mp hval with
              he | hc
            · rw [he] at hdlq
              rw [hdlq] at ho
              exact Bool.noConfusion ho
            · rw [(h o ho).1] at hc
              exact Bool.noConfusion hc
      · intro o ho
        rcases (alContains_alInsert st.dlq e.oid [0] o).mp ho with he | hold
        · rw [← he]
          exact ⟨htodo, hoids⟩
        · exact h o hold

theorem pe_todo_good (repo : Repo) (mf : Oid → List Nat → Bool)
    (st : WalkState) (e : Entry) (G : Oid → Prop)
    (he : e.kind ≠ EntryKind.tree → repo.resolvable e.oid = true → G e.oid)
    (hst : ∀ o, alContains st.todo o = true → G o) :
    ∀ o, alContains (process_entry repo mf st e).1.todo o = true → G o := by
  unfold process_entry
  split
  · exact hst
  · split
    · exact hst
    · rename_i hkind hskip
      split
      · rename_i hres
        split
        · exact hst
        · intro o ho
          rcases (alContains_alMerge st.todo e.oid e.name o).mp ho with
            heq | hold
          · rw [← heq]
            exact he hkind hres
          · exact hst o hold
      · exact hst

theorem pe_ok (repo : Repo) (mf : Oid → List Nat → Bool)
    (st : WalkState) (e : Entry) (hmf : ∀ o n, mf o n = false) :
    (process_entry repo mf st e).2 = TreeWalkResult.ok := by
  unfold process_entry
  repeat' split
  all_goals first
  | rfl
  | (rename_i hcond; exact absurd hcond (by simp [hmf]))

/-! ## The same properties lifted over a whole tree walk -/

theorem we_oids_frame (repo : Repo) (mf : Oid → List Nat → Bool)
    (entries : List Entry) : ∀ st : WalkState,
    (walkEntries repo mf st entries).1.oids = st.oids := by
  induction entries with
  | nil => intro st; rfl
  | cons e rest ih =>
    intro st
    show (match process_entry repo mf st e with
      | (st', TreeWalkResult.ok) => walkEntries repo mf st' rest
      | (st', TreeWalkResult.abort) => (st', TreeWalkResult.abort)).1.oids
        = st.oids
    cases hpe : process_entry repo mf st e with
    | mk st' r =>
      have hfr : st'.oids = st.oids := by
        have := pe_oids_frame repo mf st e
        rw [hpe] at this
        exact this
      cases r with
      | ok => simpa [hfr] using ih st'
      | abort => exact hfr

theorem we_dlq_mono (repo : Repo) (mf : Oid → List Nat → Bool)
    (entries : List Entry) : ∀ (st : WalkState) (o : Oid),
    alContains st.dlq o = true →
    alContains (walkEntries repo mf st entries).1.dlq o = true := by
  induction entries with
  | nil => intro st o h; exact h
  | cons e rest ih =>
    intro st o h
    show alContains (match process_entry repo mf st e with
      | (st', TreeWalkResult.ok) => walkEntries repo mf st' rest
      | (st', TreeWalkResult.abort) => (st', TreeWalkResult.abort)).1.dlq o
        = true
    cases hpe : process_entry repo mf st e with
    | mk st' r =>
      have hm : alContains st'.dlq o = true := by
        have := pe_dlq_mono repo mf st e o h
        rw [hpe] at this
        exact this
      cases r with
      | ok => exact ih st' o hm
      | abort => exact hm

theorem we_todo_frame (repo : Repo) (mf : Oid → List Nat → Bool)
    (entries : List Entry) : ∀ (st : WalkState) (o : Oid),
    alContains st.dlq o = true → alContains st.todo o = false →
    alContains (walkEntries repo mf st entries).1.todo o = false := by
  induction entries with
  | nil => intro st o _ ht; exact ht
  | cons e rest ih =>
    intro st o hd ht
    show alContains (match process_entry repo mf st e with
      | (st', TreeWalkResult.ok) => walkEntries repo mf st' rest
      | (st', TreeWalkResult.abort) => (st', TreeWalkResult.abort)).1.todo o
        = false
    cases hpe : process_entry repo mf st e with
    | mk st' r =>
      have hd' : alContains st'.dlq o = true := by
        have := pe_dlq_mono repo mf st e o hd
        rw [hpe] at this
        exact this
      have ht' : alContains st'.todo o = false := by
        have := pe_todo_frame repo mf st e o hd ht
        rw [hpe] at this
        exact this
      cases r with
      | ok => exact ih st' o hd' ht'
      | abort => exact ht'

theorem we_dlqDisjoint (repo : Repo) (mf : Oid → List Nat → Bool)
    (entries : List Entry) : ∀ st : WalkState, DlqDisjoint st →
    DlqDisjoint (walkEntries repo mf st entries).1 := by
  induction entries with
  | nil => intro st h; exact h
  | cons e rest ih =>
    intro st h
    show DlqDisjoint (match process_entry repo mf st e with
      | (st', TreeWalkResult.ok) => walkEntries repo mf st' rest
      | (st', TreeWalkResult.abort) => (st', TreeWalkResult.abort)).1
    cases hpe : process_entry repo mf st e with
    | mk st' r =>
      have h' : DlqDisjoint st' := by
        have := pe_dlqDisjoint repo mf st e h
        rw [hpe] at this
        exact this
      cases r with
      | ok => exact ih st' h'
      | abort => exact h'

theorem we_todo_good (repo : Repo) (mf : Oid → List Nat → Bool)
    (entries : List Entry) (G : Oid → Prop)
    (hentries : ∀ e ∈ entries,
      e.kind ≠ EntryKind.tree → repo.resolvable e.oid = true → G e.oid) :
    ∀ st : WalkState, (∀ o, alContains st.todo o = true → G o) →
    ∀ o, alContains (walkEntries repo mf st entries).1.todo o = true → G o := by
  induction entries with
  | nil => intro st hst; exact hst
  | cons e rest ih =>
    intro st hst
    show ∀ o, alContains (match process_entry repo mf st e with
      | (st', TreeWalkResult.ok) => walkEntries repo mf st' rest
      | (st', TreeWalkResult.abort) => (st', TreeWalkResult.abort)).1.todo o
        = true → G o
    cases hpe : process_entry repo mf st e with
    | mk st' r =>
      have hst' : ∀ o, alContains st'.todo o = true → G o := by
        have := pe_todo_good repo mf st e G
          (hentries e (List.mem_cons_self e rest)) hst
        rw [hpe] at this
        exact this
      cases r with
      | ok =>
        exact ih (fun e' he' => hentries e' (List.mem_cons_of_mem e he'))
          st' hst'
      | abort => exact hst'

theorem we_ok (repo : Repo) (mf : Oid → List Nat → Bool)
    (entries : List Entry) (hmf : ∀ o n, mf o n = false) :
    ∀ st : WalkState,
    (walkEntries repo mf st entries).2 = TreeWalkResult.ok := by
  induction entries with
  | nil => intro st; rfl
  | cons e rest ih =>
    intro st
    show (match process_entry repo mf st e with
      | (st', TreeWalkResult.ok) => walkEntries repo mf st' rest
      | (st', TreeWalkResult.abort) => (st', TreeWalkResult.abort)).2
        = TreeWalkResult.ok
    cases hpe : process_entry repo mf st e with
    | mk st' r =>
      have hr : r = TreeWalkResult.ok := by
        have := pe_ok repo mf st e hmf
        rw [hpe] at this
        exact this
      rw [hr]
      exact ih st'

/-! ## The same properties over one revision task and the whole stage -/

theorem wr_oids_frame (repo : Repo) (mf : Oid → List Nat → Bool)
    (st : WalkState) (rev : Oid) :
    (walkRev repo mf st rev).1.oids = st.oids := by
  unfold walkRev
  cases hct : repo.commitTree rev with
  | none => rfl
  | some entries =>
    show (match walkEntries repo mf st entries with
      | (st', TreeWalkResult.ok) => (st', true)
      | (st', TreeWalkResult.abort) => (st', false)).1.oids = st.oids
    cases hwe : walkEntries repo mf st entries with
    | mk st' r =>
      have := we_oids_frame repo mf entries st
      rw [hwe] at this
      cases r <;> exact this

theorem wr_dlq_mono (repo : Repo) (mf : Oid → List Nat → Bool)
    (st : WalkState) (rev : Oid) (o : Oid)
    (h : alContains st.dlq o = true) :
    alContains (walkRev repo mf st rev).1.dlq o = true := by
  unfold walkRev
  cases hct : repo.commitTree rev with
  | none => exact h
  | some entries =>
    show alContains (match walkEntries repo mf st entries with
      | (st', TreeWalkResult.ok) => (st', true)
      | (st', TreeWalkResult.abort) => (st', false)).1.dlq o = true
    cases hwe : walkEntries repo mf st entries with
    | mk st' r =>
      have := we_dlq_mono repo mf entries st o h
      rw [hwe] at this
      cases r <;> exact this

theorem wr_todo_frame (repo : Repo) (mf : Oid → List Nat → Bool)
    (st : WalkState) (rev : Oid) (o : Oid)
    (hd : alContains st.dlq o = true) (ht : alContains st.todo o = false) :
    alContains (walkRev repo mf st rev).1.todo o = false := by
  unfold walkRev
  cases hct : repo.commitTree rev with
  | none => exact ht
  | some entries =>
    show alContains (match walkEntries repo mf st entries with
      | (st', TreeWalkResult.ok) => (st', true)
      | (st', TreeWalkResult.abort) => (st', false)).1.todo o = false
    cases hwe : walkEntries repo mf st entries with
    | mk st' r =>
      have := we_todo_frame repo mf entries st o hd ht
      rw [hwe] at this
      cases r <;> exact this

theorem wr_dlqDisjoint (repo : Repo) (mf : Oid → List Nat → Bool)
    (st : WalkState) (rev : Oid) (h : DlqDisjoint st) :
    DlqDisjoint (walkRev repo mf st rev).1 := by
  unfold walkRev
  cases hct : repo.commitTree rev with
  | none => exact h
  | some entries =>
    show DlqDisjoint (match walkEntries repo mf st entries with
      | (st', TreeWalkResult.ok) => (st', true)
      | (st', TreeWalkResult.abort) => (st', false)).1
    cases hwe : walkEntries repo mf st entries with
    | mk st' r =>
      have := we_dlqDisjoint repo mf entries st h
      rw [hwe] at this
      cases r <;> exact this

theorem wr_todo_good (repo : Repo) (mf : Oid → List Nat → Bool)
    (st : WalkState) (rev : Oid) (G : Oid → Prop)
    (hrepo : ∀ r entries e, repo.commitTree r = some entries → e ∈ entries →
      e.kind ≠ EntryKind.tree → repo.resolvable e.oid = true → G e.oid)
    (hst : ∀ o, alContains st.todo o = true → G o) :
    ∀ o, alContains (walkRev repo mf st rev).1.todo o = true → G o := by
  unfold walkRev
  cases hct : repo.commitTree rev with
  | none => exact hst
  | some entries =>
    show ∀ o, alContains (match walkEntries repo mf st entries with
      | (st', TreeWalkResult.ok) => (st', true)
      | (st', TreeWalkResult.abort) => (st', false)).1.todo o = true → G o
    cases hwe : walkEntries repo mf st entries with
    | mk st' r =>
      have := we_todo_good repo mf entries G
        (fun e he => hrepo rev entries e hct he) st hst
      rw [hwe] at this
      cases r <;> exact this

theorem wr_ok (repo : Repo) (mf : Oid → List Nat → Bool)
    (st : WalkState) (rev : Oid) (hmf : ∀ o n, mf o n = false)
    (hct : (repo.commitTree rev).isSome = true) :
    (walkRev repo mf st rev).2 = true := by
  unfold walkRev
  cases hc : repo.commitTree rev with
  | none => rw [hc] at hct; exact Bool.noConfusion hct
  | some entries =>
    show (match walkEntries repo mf st entries with
      | (st', TreeWalkResult.ok) => (st', true)
      | (st', TreeWalkResult.abort) => (st', false)).2 = true
    cases hwe : walkEntries repo mf st entries with
    | mk st' r =>
      have := we_ok repo mf entries hmf st
      rw [hwe] at this
      have hr : r = TreeWalkResult.ok := this
      rw [hr]

theorem det_oids_frame (repo : Repo) (mf : Oid → List Nat → Bool)
    (revs : List Oid) : ∀ st : WalkState,
    (determine_oids_to_render repo mf st revs).1.oids = st.oids := by
  induction revs with
  | nil => intro st; rfl
  | cons rev rest ih =>
    intro st
    show (match walkRev repo mf st rev with
      | (st', true) => determine_oids_to_render repo mf st' rest
      | (st', false) => (st', false)).1.oids = st.oids
    cases hwr : walkRev repo mf st rev with
    | mk st' b =>
      have hfr : st'.oids = st.oids := by
        have := wr_oids_frame repo mf st rev
        rw [hwr] at this
        exact this
      cases b with
      | true => simpa [hfr] using ih st'
      | false => exact hfr

theorem det_dlq_mono (repo : Repo) (mf : Oid → List Nat → Bool)
    (revs : List Oid) : ∀ (st : WalkState) (o : Oid),
    alContains st.dlq o = true →
    alContains (determine_oids_to_render repo mf st revs).1.dlq o = true := by
  induction revs with
  | nil => intro st o h; exact h
  | cons rev rest ih =>
    intro st o h
    show alContains (match walkRev repo mf st rev with
      | (st', true) => determine_oids_to_render repo mf st' rest
      | (st', false) => (st', false)).1.dlq o = true
    cases hwr : walkRev repo mf st rev with
    | mk st' b =>
      have hm : alContains st'.dlq o = true := by
        have := wr_dlq_mono repo mf st rev o h
        rw [hwr] at this
        exact this
      cases b with
      | true => exact ih st' o hm
      | false => exact hm

theorem det_todo_frame (repo : Repo) (mf : Oid → List Nat → Bool)
    (revs : List Oid) : ∀ (st : WalkState) (o : Oid),
    alContains st.dlq o = true → alContains st.todo o = false →
    alContains (determine_oids_to_render repo mf st revs).1.todo o = false := by
  induction revs with
  | nil => intro st o _ ht; exact ht
  | cons rev rest ih =>
    intro st o hd ht
    show alContains (match walkRev repo mf st rev with
      | (st', true) => determine_oids_to_render repo mf st' rest
      | (st', false) => (st', false)).1.todo o = false
    cases hwr : walkRev repo mf st rev with
    | mk st' b =>
      have hd' : alContains st'.dlq o = true := by
        have := wr_dlq_mono repo mf st rev o hd
        rw [hwr] at this
        exact this
      have ht' : alContains st'.todo o = false := by
        have := wr_todo_frame repo mf st rev o hd ht
        rw [hwr] at this
        exact this
      cases b with
      | true => exact ih st' o hd' ht'
      | false => exact ht'

theorem det_dlqDisjoint (repo : Repo) (mf : Oid → List Nat → Bool)
    (revs : List Oid) : ∀ st : WalkState, DlqDisjoint st →
    DlqDisjoint (determine_oids_to_render repo mf st revs).1 := by
  induction revs with
  | nil => intro st h; exact h
  | cons rev rest ih =>
    intro st h
    show DlqDisjoint (match walkRev repo mf st rev with
      | (st', true) => determine_oids_to_render repo mf st' rest
      | (st', false) => (st', false)).1
    cases hwr : walkRev repo mf st rev with
    | mk st' b =>
      have h' : DlqDisjoint st' := by
        have := wr_dlqDisjoint repo mf st rev h
        rw [hwr] at this
        exact this
      cases b with
      | true => exact ih st' h'
      | false => exact h'

theorem det_todo_good (repo : Repo) (mf : Oid → List Nat → Bool)
    (revs : List Oid) (G : Oid → Prop)
    (hrepo : ∀ r entries e, repo.commitTree r = some entries → e ∈ entries →
      e.kind ≠ EntryKind.tree → repo.resolvable e.oid = true → G e.oid) :
    ∀ st : WalkState, (∀ o, alContains st.todo o = true → G o) →
    ∀ o, alContains (determine_oids_to_render repo mf st revs).1.todo o = true →
      G o := by
  induction revs with
  | nil => intro st hst; exact hst
  | cons rev rest ih =>
    intro st hst
    show ∀ o, alContains (match walkRev repo mf st rev with
      | (st', true) => determine_oids_to_render repo mf st' rest
      | (st', false) => (st', false)).1.todo o = true → G o
    cases hwr : walkRev repo mf st rev with
    | mk st' b =>
      have hst' : ∀ o, alContains st'.todo o = true → G o := by
        have := wr_todo_good repo mf st rev G hrepo hst
        rw [hwr] at this
        exact this
      cases b with
      | true => exact ih st' hst'
      | false => exact hst'

theorem det_ok (repo : Repo) (mf : Oid → List Nat → Bool)
    (revs : List Oid) (hmf : ∀ o n, mf o n = false) :
    ∀ st : WalkState, (∀ r ∈ revs, (repo.commitTree r).isSome = true) →
    (determine_oids_to_render repo mf st revs).2 = true := by
  induction revs with
  | nil => intro st _; rfl
  | cons rev rest ih =>
    intro st hrevs
    show (match walkRev repo mf st rev with
      | (st', true) => determine_oids_to_render repo mf st' rest
      | (st', false) => (st', false)).2 = true
    cases hwr : walkRev repo mf st rev with
    | mk st' b =>
      have hb : b = true := by
        have := wr_ok repo mf st rev hmf
          (hrevs rev (List.mem_cons_self rev rest))
        rw [hwr] at this
        exact this
      rw [hb]
      exact ih st' (fun r hr => hrevs r (List.mem_cons_of_mem rev hr))

/-! ## Render-stage lemmas -/

theorem render_text_blobs_cons (repo : Repo) (db : SledTree) (k : Oid)
    (v : List Nat) (rest : SledTree) :
    render_text_blobs repo db ((k, v) :: rest) =
      match render_text_blob repo k ((splitOnNul v).headD []) db with
      | some db2 => render_text_blobs repo db2 rest
      | none => (db, false) := rfl

/-- A single successful `render_text_blob` call only ever touches the key
it was asked to render. -/
theorem render_text_blob_contains (repo : Repo) (oid : Oid)
    (filename : List Nat) (db db2 : SledTree) (o : Oid)
    (h : render_text_blob repo oid filename db = some db2)
    (hc : alContains db2 o = true) :
    oid = o ∨ alContains db o = true := by
  unfold render_text_blob at h
  cases hfb : findBlob repo oid with
  | none =>
    rw [hfb] at h
    exact Option.noConfusion h
  | some b =>
    rw [hfb] at h
    have h' : (if b.is_binary = true then some db
        else some (alInsert db oid (repo.highlight b.content filename)))
          = some db2 := h
    by_cases hb : b.is_binary = true
    · rw [if_pos hb] at h'
      injection h' with h2
      subst h2
      exact Or.inr hc
    · rw [if_neg hb] at h'
      injection h' with h2
      subst h2
      exact (alContains_alInsert db oid (repo.highlight b.content filename) o).mp hc

/-- The render stage inserts only keys drawn from the pending collection
it iterates. -/
theorem render_adds_only_pending (repo : Repo) (todoL : SledTree) :
    ∀ (db : SledTree) (o : Oid),
    alContains (render_text_blobs repo db todoL).1 o = true →
    alContains db o = true ∨ alContains todoL o = true := by
  induction todoL with
  | nil => intro db o h; exact Or.inl h
  | cons p rest ih =>
    obtain ⟨k, v⟩ := p
    intro db o h
    rw [render_text_blobs_cons] at h
    cases hrt : render_text_blob repo k ((splitOnNul v).headD []) db with
    | none =>
      rw [hrt] at h
      exact Or.inl h
    | some db2 =>
      rw [hrt] at h
      rcases ih db2 o h with h1 | h2
      · rcases render_text_blob_contains repo k ((splitOnNul v).headD [])
          db db2 o hrt h1 with hk | hdb
        · exact Or.inr ((alContains_cons k v rest o).mpr (Or.inl hk))
        · exact Or.inl hdb
      · exact Or.inr ((alContains_cons k v rest o).mpr (Or.inr h2))

/-- The render stage succeeds whenever every pending OID resolves to a
blob. -/
theorem render_ok (repo : Repo) (todoL : SledTree) :
    ∀ db : SledTree,
    (∀ o, alContains todoL o = true → (findBlob repo o).isSome = true) →
    (render_text_blobs repo db todoL).2 = true := by
  induction todoL with
  | nil => intro db _; rfl
  | cons p rest ih =>
    obtain ⟨k, v⟩ := p
    intro db hgood
    rw [render_text_blobs_cons]
    have hk : (findBlob repo k).isSome = true :=
      hgood k ((alContains_cons k v rest k).mpr (Or.inl rfl))
    cases hfb : findBlob repo k with
    | none =>
      rw [hfb] at hk
      exact Bool.noConfusion hk
    | some b =>
      unfold render_text_blob
      rw [hfb]
      show (match (if b.is_binary = true then some db
          else some (alInsert db k
            (repo.highlight b.content ((splitOnNul v).headD [])))) with
        | some db2 => render_text_blobs repo db2 rest
        | none => (db, false)).2 = true
      by_cases hb : b.is_binary = true
      · rw [if_pos hb]
        exact ih db
          (fun o ho => hgood o ((alContains_cons k v rest o).mpr (Or.inr ho)))
      · rw [if_neg hb]
        exact ih (alInsert db k (repo.highlight b.content ((splitOnNul v).headD [])))
          (fun o ho => hgood o ((alContains_cons k v rest o).mpr (Or.inr ho)))

/-! ## Claim theorems over the walk and render stages -/

/-- C5: during the work-queue-building walk, a non-tree entry whose OID is
already a key of the rendered, pending or dead-letter collection leaves the
whole state (all three collections and the log) unchanged, and the walk
continues. -/
theorem c5_already_known_is_noop (repo : Repo) (mf : Oid → List Nat → Bool)
    (st : WalkState) (e : Entry) (hk : e.kind ≠ EntryKind.tree)
    (hmem : alContains st.oids e.oid = true ∨ alContains st.todo e.oid = true
      ∨ alContains st.dlq e.oid = true) :
    process_entry repo mf st e = (st, TreeWalkResult.ok) := by
  have hguard : (alContains st.oids e.oid || alContains st.todo e.oid
      || alContains st.dlq e.oid) = true := by
    rcases hmem with h | h | h <;> simp [h]
  unfold process_entry
  rw [if_neg hk, if_pos hguard]

/-- A walk state with one already-rendered OID `[3]`, used as the C5
witness input. -/
def stOneRendered : WalkState :=
  { oids := [([3], [1])], todo := [], dlq := [], log := [] }

/-- The tree entry for blob `[3]` named `"a"`. -/
def entryBlob3 : Entry := { kind := EntryKind.blob, oid := [3], name := [97] }

/-- Witness for C5: OID `[3]` is already rendered, so processing its entry
changes nothing and the walk continues. -/
theorem c5_already_known_is_noop_witness :
    alContains stOneRendered.oids [3] = true
    ∧ process_entry repoOneTextBlob noStoreFailure stOneRendered entryBlob3
        = (stOneRendered, TreeWalkResult.ok) :=
  ⟨by decide,
    c5_already_known_is_noop repoOneTextBlob noStoreFailure stOneRendered
      entryBlob3 (by decide) (Or.inl (by decide))⟩

/-- C6: a non-tree entry whose OID is new and unresolvable is inserted into
the dead-letter collection with the sentinel value `[0]`, an error is
logged, pending and rendered are untouched, and the walk continues; and
processing the same entry again afterwards is a no-op, so the OID is
dead-lettered exactly once. -/
theorem c6_unresolvable_dead_lettered (repo : Repo)
    (mf : Oid → List Nat → Bool) (st : WalkState) (e : Entry)
    (hk : e.kind ≠ EntryKind.tree)
    (h1 : alContains st.oids e.oid = false)
    (h2 : alContains st.todo e.oid = false)
    (h3 : alContains st.dlq e.oid = false)
    (hr : repo.resolvable e.oid = false) :
    process_entry repo mf st e
      = ({ st with dlq := alInsert st.dlq e.oid [0],
                   log := st.log ++ [LogMsg.unreachableEntity e.oid] },
          TreeWalkResult.ok)
    ∧ alLookup (alInsert st.dlq e.oid [0]) e.oid = some [0]
    ∧ process_entry repo mf
        { st with dlq := alInsert st.dlq e.oid [0],
                  log := st.log ++ [LogMsg.unreachableEntity e.oid] } e
      = ({ st with dlq := alInsert st.dlq e.oid [0],
                   log := st.log ++ [LogMsg.unreachableEntity e.oid] },
          TreeWalkResult.ok) := by
  have hguard : (alContains st.oids e.oid || alContains st.todo e.oid
      || alContains st.dlq e.oid) = false := by
    simp [h1, h2, h3]
  refine ⟨?_, alLookup_alInsert_self st.dlq e.oid [0], ?_⟩
  · unfold process_entry
    rw [if_neg hk]
    rw [if_neg (by simp [hguard])]
    rw [if_neg (by simp [hr])]
  · have hdlq2 : alContains (alInsert st.dlq e.oid [0]) e.oid = true := by
      simp [alContains, alLookup_alInsert_self]
    have hguard2 : (alContains st.oids e.oid || alContains st.todo e.oid
        || alContains (alInsert st.dlq e.oid [0]) e.oid) = true := by
      simp [hdlq2]
    unfold process_entry
    rw [if_neg hk, if_pos hguard2]

/-- A blob the content sniff classifies as binary. -/
def binBlob : GitBlob := { content := [0, 1], is_binary := true }

/-- A repository holding the binary blob `[4]`. -/
def repoBinaryBlob : Repo :=
  { revs := [[1]]
    commitTree := fun r =>
      if r = [1] then
        some [{ kind := EntryKind.blob, oid := [4], name := [97] }]
      else none
    resolvable := fun o => o = [4]
    blob := fun o => if o = [4] then some binBlob else none
    highlight := fun c f => c }

/-- Witness for C6: the unresolvable OID `[5]` of `repoUnresolvable`,
processed against an empty state, ends up dead-lettered with the sentinel
value. -/
theorem c6_unresolvable_dead_lettered_witness :
    repoUnresolvable.resolvable [5] = false
    ∧ process_entry repoUnresolvable noStoreFailure
        { oids := [], todo := [], dlq := [], log := [] }
        { kind := EntryKind.blob, oid := [5], name := [97] }
      = ({ oids := [], todo := [], dlq := alInsert [] [5] [0],
           log := [] ++ [LogMsg.unreachableEntity [5]] },
          TreeWalkResult.ok) :=
  ⟨by decide,
    (c6_unresolvable_dead_lettered repoUnresolvable noStoreFailure
      { oids := [], todo := [], dlq := [], log := [] }
      { kind := EntryKind.blob, oid := [5], name := [97] }
      (by decide) (by decide) (by decide) (by decide) (by decide)).1⟩

/-- C7: a pending OID that resolves to a blob classified as binary by the
content sniff makes `render_text_blob` return success without writing any
record into the rendered collection. -/
theorem c7_binary_blob_skipped (repo : Repo) (oid : Oid)
    (filename : List Nat) (db : SledTree) (b : GitBlob)
    (hfb : findBlob repo oid = some b) (hbin : b.is_binary = true) :
    render_text_blob repo oid filename db = some db := by
  unfold render_text_blob
  rw [hfb]
  show (if b.is_binary = true then some db
      else some (alInsert db oid (repo.highlight b.content filename)))
    = some db
  rw [if_pos hbin]

/-- Witness for C7: rendering the binary blob `[4]` against an empty
rendered collection succeeds and leaves the collection empty. -/
theorem c7_binary_blob_skipped_witness :
    findBlob repoBinaryBlob [4] = some binBlob
    ∧ binBlob.is_binary = true
    ∧ render_text_blob repoBinaryBlob [4] [97] [] = some [] :=
  ⟨by decide, by decide,
    c7_binary_blob_skipped repoBinaryBlob [4] [97] [] binBlob
      (by decide) (by decide)⟩

/-! ## Amended run-level invariants -/

/-- C1 (amended): at quiescence the dead-letter collection is disjoint
from both pending and rendered — any dead-lettered OID is a key of neither
`oids_todo` nor `oids`.  (Pending and rendered, by contrast, may overlap:
the renderer never removes rendered OIDs from pending; see the
counterexample.) -/
theorem c1_amended_dlq_disjoint (repo : Repo) (mf : Oid → List Nat → Bool)
    (depth : Nat) (prev : Store) (oid : Oid)
    (h : alContains (runOnce repo mf depth prev).1.oids_dlq oid = true) :
    alContains (runOnce repo mf depth prev).1.oids_todo oid = false
    ∧ alContains (runOnce repo mf depth prev).1.oids oid = false := by
  have hstart : DlqDisjoint
      { oids := prev.oids, todo := [], dlq := [], log := [] } := by
    intro o ho
    simp [alContains, alLookup] at ho
  have hdis := det_dlqDisjoint repo mf
    (alKeys (serialized_revs_from_repo repo prev.revs depth))
    { oids := prev.oids, todo := [], dlq := [], log := [] } hstart
  simp only [runOnce] at h ⊢
  cases hdet : determine_oids_to_render repo mf
      { oids := prev.oids, todo := [], dlq := [], log := [] }
      (alKeys (serialized_revs_from_repo repo prev.revs depth)) with
  | mk st1 ok1 =>
    rw [hdet] at h hdis
    cases ok1 with
    | false => exact hdis oid h
    | true =>
      obtain ⟨ht1, ho1⟩ := hdis oid h
      show alContains st1.todo oid = false
        ∧ alContains (render_text_blobs repo st1.oids st1.todo).1 oid = false
      refine ⟨ht1, ?_⟩
      cases hval : alContains (render_text_blobs repo st1.oids st1.todo).1 oid
        with
      | false => rfl
      | true =>
        exfalso
        rcases render_adds_only_pending repo st1.todo st1.oids oid hval with
          hdb | htd
        · rw [ho1] at hdb
          exact Bool.noConfusion hdb
        · rw [ht1] at htd
          exact Bool.noConfusion htd

/-- Witness for C1 (amended), on the run that dead-letters OID `[5]`. -/
theorem c1_amended_dlq_disjoint_witness :
    alContains (runOnce repoUnresolvable noStoreFailure 0
        emptyStore).1.oids_dlq [5] = true
    ∧ alContains (runOnce repoUnresolvable noStoreFailure 0
        emptyStore).1.oids_todo [5] = false :=
  ⟨by decide,
    (c1_amended_dlq_disjoint repoUnresolvable noStoreFailure 0 emptyStore [5]
      (by decide)).1⟩

/-- C2 (amended): within a single run, once an OID has been dead-lettered
it stays dead-lettered and is never inserted into pending or rendered for
the remainder of that run (the rest of the walk and the whole render
stage).  Across runs no such guarantee holds, because `main` clears
`oids_dlq` at the start of every run; see the counterexample. -/
theorem c2_amended_terminal_within_run (repo : Repo)
    (mf : Oid → List Nat → Bool) (revKeys : List Oid) (st : WalkState)
    (oid : Oid)
    (hd : alContains st.dlq oid = true)
    (ht : alContains st.todo oid = false)
    (ho : alContains st.oids oid = false) :
    alContains (determine_oids_to_render repo mf st revKeys).1.dlq oid = true
    ∧ alContains (determine_oids_to_render repo mf st revKeys).1.todo oid
        = false
    ∧ alContains (render_text_blobs repo
        (determine_oids_to_render repo mf st revKeys).1.oids
        (determine_oids_to_render repo mf st revKeys).1.todo).1 oid
        = false := by
  have hd' := det_dlq_mono repo mf revKeys st oid hd
  have ht' := det_todo_frame repo mf revKeys st oid hd ht
  have ho' : alContains (determine_oids_to_render repo mf st revKeys).1.oids
      oid = false := by
    rw [det_oids_frame]
    exact ho
  refine ⟨hd', ht', ?_⟩
  cases hval : alContains (render_text_blobs repo
      (determine_oids_to_render repo mf st revKeys).1.oids
      (determine_oids_to_render repo mf st revKeys).1.todo).1 oid with
  | false => rfl
  | true =>
    exfalso
    rcases render_adds_only_pending repo
      (determine_oids_to_render repo mf st revKeys).1.todo
      (determine_oids_to_render repo mf st revKeys).1.oids oid hval with
      hdb | htd
    · rw [ho'] at hdb
      exact Bool.noConfusion hdb
    · rw [ht'] at htd
      exact Bool.noConfusion htd

/-- A mid-run walk state in which OID `[9]` has just been dead-lettered. -/
def stDeadLettered : WalkState :=
  { oids := [], todo := [], dlq := [([9], [0])], log := [] }

/-- Witness for C2 (amended): continuing the run of `repoOneTextBlob` from
a state with `[9]` dead-lettered keeps `[9]` in dead-letter only. -/
theorem c2_amended_terminal_within_run_witness :
    alContains stDeadLettered.dlq [9] = true
    ∧ alContains (determine_oids_to_render repoOneTextBlob noStoreFailure
        stDeadLettered [[1]]).1.dlq [9] = true :=
  ⟨by decide,
    (c2_amended_terminal_within_run repoOneTextBlob noStoreFailure [[1]]
      stDeadLettered [9] (by decide) (by decide) (by decide)).1⟩

/-- C8 (amended): the process exits successfully when every top-level
setup step succeeds AND no stage error propagates: no store-write failure
during the walks, every key of the revs collection resolves to a commit
tree, and every resolvable non-tree entry peels to a blob.  (A store-write
failure during one revision's tree walk aborts that walk and, contrary to
the original claim, propagates into an unsuccessful process exit; see the
counterexample.) -/
theorem c8_amended_success_condition (w : World)
    (h1 : w.storeOpens = true) (h2 : w.dirsOk = true)
    (h3 : w.repoOpens = true)
    (hmf : ∀ o n, w.mergeFails o n = false)
    (hrev : ∀ r, alContains (serialized_revs_from_repo w.repo w.prev.revs
      w.depth) r = true → (w.repo.commitTree r).isSome = true)
    (hblob : ∀ r entries e, w.repo.commitTree r = some entries →
      e ∈ entries → e.kind ≠ EntryKind.tree →
      w.repo.resolvable e.oid = true →
      (findBlob w.repo e.oid).isSome = true) :
    main_exits_ok w = true := by
  unfold main_exits_ok
  rw [h1, h2, h3]
  simp only [Bool.true_and]
  simp only [runOnce]
  cases hdet : determine_oids_to_render w.repo w.mergeFails
      { oids := w.prev.oids, todo := [], dlq := [], log := [] }
      (alKeys (serialized_revs_from_repo w.repo w.prev.revs w.depth)) with
  | mk st1 ok1 =>
    have hok1 : ok1 = true := by
      have := det_ok w.repo w.mergeFails
        (alKeys (serialized_revs_from_repo w.repo w.prev.revs w.depth)) hmf
        { oids := w.prev.oids, todo := [], dlq := [], log := [] }
        (fun r hr => hrev r ((mem_alKeys _ r).mp hr))
      rw [hdet] at this
      exact this
    rw [hok1]
    have hgood : ∀ o, alContains st1.todo o = true →
        (findBlob w.repo o).isSome = true := by
      have hstart : ∀ o, alContains ([] : SledTree) o = true →
          (findBlob w.repo o).isSome = true := by
        intro o ho
        simp [alContains, alLookup] at ho
      have := det_todo_good w.repo w.mergeFails
        (alKeys (serialized_revs_from_repo w.repo w.prev.revs w.depth))
        (fun o => (findBlob w.repo o).isSome = true) hblob
        { oids := w.prev.oids, todo := [], dlq := [], log := [] } hstart
      rw [hdet] at this
      exact this
    show (render_text_blobs w.repo st1.oids st1.todo).2 = true
    exact render_ok w.repo st1.todo st1.oids hgood

/-- A repository whose resolution functions are total, so that every
success hypothesis of the amended C8 theorem holds definitionally. -/
def repoConstText : Repo :=
  { revs := [[1]]
    commitTree := fun _ =>
      some [{ kind := EntryKind.blob, oid := [2], name := [97] }]
    resolvable := fun _ => true
    blob := fun _ => some { content := [104], is_binary := false }
    highlight := fun c f => c }

/-- A world in which every setup step succeeds and no store write fails. -/
def worldAllOk : World :=
  { storeOpens := true, dirsOk := true, repoOpens := true
    repo := repoConstText, mergeFails := fun o n => false
    depth := 0, prev := emptyStore }

/-- Witness for C8 (amended): a fully healthy world exits successfully. -/
theorem c8_amended_success_condition_witness :
    (∀ o n, worldAllOk.mergeFails o n = false)
    ∧ main_exits_ok worldAllOk = true :=
  ⟨fun o n => rfl,
    c8_amended_success_condition worldAllOk rfl rfl rfl (fun o n => rfl)
      (fun r hr => rfl) (fun r entries e hes he hk hres => rfl)⟩

/-! ## Tree-listing objects and their hyperlinks -/

/-- One lowercase hex digit (0-9, a-f) for a nibble value. -/
def hexDigit (n : Nat) : Char :=
  if n < 10 then Char.ofNat (48 + n) else Char.ofNat (87 + n)

/-- `git2::Oid::to_string()`: the lowercase hex rendering of the id
bytes. -/
def oidHex (oid : Oid) : String :=
  String.mk (oid.foldr
    (fun b acc => hexDigit (b % 256 / 16) :: hexDigit (b % 16) :: acc) [])

/-- A `PathBuf` built purely from relative-component pushes, rendered by
`to_string_lossy` as its components joined with `/`. -/
def pathbuf_to_string (pb : List String) : String :=
  String.intercalate "/" pb

/-- `RenderableTreeObject` (main.rs:286-302): a tree-listing row — a
subtree, a text file, or a binary file — with its object id, display name
and path-inside-the-tree (topography). -/
inductive RenderableTreeObject where
  | tree (oid : Oid) (name : String) (topography : List String)
  | textFile (oid : Oid) (name : String) (topography : List String)
  | binaryFile (oid : Oid) (name : String) (topography : List String)
  deriving DecidableEq, Repr

/-- `generate_tree_link` (main.rs:784-786). -/
def generate_tree_link (oid : Oid) : String :=
  "/tree/" ++ oidHex oid

/-- `generate_oid_link` (main.rs:788-791). -/
def generate_oid_link (oid : Oid) : String :=
  "/oid/" ++ oidHex oid ++ ".html"

/-- `RenderableTreeObject::link` (main.rs:305-311). -/
def RenderableTreeObject.link : RenderableTreeObject → Option String
  | RenderableTreeObject.tree oid _ _ => some (generate_tree_link oid)
  | RenderableTreeObject.textFile oid _ _ => some (generate_oid_link oid)
  | RenderableTreeObject.binaryFile _ _ _ => none

/-- `RenderableTreeObject::relative_link` (main.rs:313-337): push `tree`,
the listing tree's hex id, every topography component and the entry name
onto a fresh `PathBuf`; binary files get no link. -/
def RenderableTreeObject.relative_link :
    RenderableTreeObject → Oid → Option String
  | RenderableTreeObject.textFile _ name topography, t
  | RenderableTreeObject.tree _ name topography, t =>
    some (pathbuf_to_string (("tree" :: oidHex t :: topography) ++ [name]))
  | RenderableTreeObject.binaryFile _ _ _, _ => none

/-- C10: `relative_link` (and `link`) return `none` exactly for binary
files, and for text files and subtrees `relative_link` is
`tree/<tree OID hex>/<topography components>/<name>`. -/
theorem c10_binary_files_unlinked (oid : Oid) (t : Oid) (name : String)
    (topo : List String) :
    RenderableTreeObject.relative_link
        (RenderableTreeObject.binaryFile oid name topo) t = none
    ∧ RenderableTreeObject.link
        (RenderableTreeObject.binaryFile oid name topo) = none
    ∧ RenderableTreeObject.relative_link
        (RenderableTreeObject.textFile oid name topo) t
      = some (String.intercalate "/" ("tree" :: oidHex t :: (topo ++ [name])))
    ∧ RenderableTreeObject.relative_link
        (RenderableTreeObject.tree oid name topo) t
      = some (String.intercalate "/" ("tree" :: oidHex t :: (topo ++ [name])))
    ∧ RenderableTreeObject.link
        (RenderableTreeObject.textFile oid name topo)
      = some ("/oid/" ++ oidHex oid ++ ".html")
    ∧ RenderableTreeObject.link
        (RenderableTreeObject.tree oid name topo)
      = some ("/tree/" ++ oidHex oid) :=
  ⟨rfl, rfl, rfl, rfl, rfl, rfl⟩

/-- Sanity check mirroring the source unit test `test_rto_relative_link`:
`README.md` at the root of tree `7b1d3f17c47cce7788f74a2a620c5eb4034f6ff3`
links to `tree/7b1d3f17c47cce7788f74a2a620c5eb4034f6ff3/README.md`. -/
theorem relative_link_matches_source_unit_test :
    RenderableTreeObject.relative_link
      (RenderableTreeObject.textFile
        [0xf5, 0x04, 0xbd, 0xfd, 0x6f, 0xee, 0x4f, 0x3f, 0xd2, 0x9c,
         0x06, 0x11, 0xd9, 0x5b, 0x1a, 0xe2, 0x4b, 0xd6, 0xe6, 0xcd]
        "README.md" [])
      [0x7b, 0x1d, 0x3f, 0x17, 0xc4, 0x7c, 0xce, 0x77, 0x88, 0xf7,
       0x4a, 0x2a, 0x62, 0x0c, 0x5e, 0xb4, 0x03, 0x4f, 0x6f, 0xf3]
    = some "tree/7b1d3f17c47cce7788f74a2a620c5eb4034f6ff3/README.md" := by
  decide
